import Mathlib

/-!
Shallow embedding of `go-eta` (`src/eta.go`), an ETA calculator.

Modelling conventions:
* `time.Time` and `time.Duration` are modelled as `Int` (nanoseconds); the
  zero value `time.Time{}` (the "unknown" sentinel) is the integer `0`, and
  `t.Add(d)` is `t + d`.
* Go's `int`/`int64` division truncates toward zero, which is `Int.tdiv`;
  division by zero panics in Go, so fallible expressions are modelled in
  `GoResult` (`Except GoPanic`), with `goDiv` raising `divideByZero` and
  out-of-range indexing raising `indexOutOfRange`.
* The mutex fields are dropped: every claim is about the sequential
  semantics of the operations.
-/

namespace GoEta

/-- The run-time faults Go can raise in this code: out-of-range slice
indexing, integer division by zero, and a slice expression `s[:k]` with a
negative bound. -/
inductive GoPanic where
  | indexOutOfRange
  | divideByZero
  | sliceBounds
deriving DecidableEq

/-- Result of running a piece of Go code: a value, or a run-time panic. -/
abbrev GoResult (α : Type) := Except GoPanic α

instance {α : Type} [DecidableEq α] : DecidableEq (GoResult α) := fun x y =>
  match x, y with
  | .ok a, .ok b =>
      if h : a = b then .isTrue (by rw [h])
      else .isFalse (by intro hc; exact h (Except.ok.inj hc))
  | .ok _, .error _ => .isFalse (by intro hc; exact Except.noConfusion hc)
  | .error _, .ok _ => .isFalse (by intro hc; exact Except.noConfusion hc)
  | .error a, .error b =>
      if h : a = b then .isTrue (by rw [h])
      else .isFalse (by intro hc; exact h (Except.error.inj hc))

/-- Go integer division `a / b`: truncates toward zero, panics when `b = 0`. -/
def goDiv (a b : Int) : GoResult Int :=
  if b = 0 then .error .divideByZero else .ok (Int.tdiv a b)

/-- Go `t.Truncate(d)`: rounds `t` down to a multiple of `d` since the zero
time; for `d ≤ 0` it returns `t` unchanged. -/
def truncate (t d : Int) : Int :=
  if d ≤ 0 then t else t - t.emod d

/-- The `Calculator` struct of `src/eta.go` (mutex omitted). -/
structure Calculator where
  startTime : Int
  processed : Int
  TotalCount : Int
  PeriodCount : Int
  periodDuration : Int
  currentPeriod : Int
  currentProcessed : Int
  stats : List Int
deriving DecidableEq

/-- `NewCustom` of `src/eta.go`.

Modelled from the spec: the source sets `PeriodCount` to the constant
`defaultPeriodCount`, defined in a repository file that is not under
`src/`; the spec only says it is a fixed configuration constant and gives
no value, so the constant is taken here as the parameter `pc`. -/
def NewCustom (totalCount periodDuration pc now : Int) : Calculator :=
  { startTime := now
    processed := 0
    TotalCount := totalCount
    PeriodCount := pc
    periodDuration := periodDuration
    currentPeriod := truncate now periodDuration
    currentProcessed := 0
    stats := [] }

/-- `Increment` of `src/eta.go`, as a total function.  The slice expression
`ec.stats[:ec.PeriodCount]` is modelled by `List.take ec.PeriodCount.toNat`;
for `PeriodCount ≥ 0` (every constructed calculator) this agrees with Go,
see `IncrementGo` and `IncrementGo_ok` for the faithful panicking version. -/
def Increment (ec : Calculator) (n now : Int) : Calculator :=
  if n ≤ 0 then ec
  else
    let ec1 := { ec with processed := ec.processed + n }
    let period := truncate now ec1.periodDuration
    if ec1.currentPeriod = period then
      { ec1 with currentProcessed := ec1.currentProcessed + n }
    else
      let ec2 := { ec1 with stats := ec1.stats ++ [ec1.currentProcessed]
                            currentProcessed := 0
                            currentPeriod := period }
      if ec2.PeriodCount < (ec2.stats.length : Int) then
        { ec2 with stats := ec2.stats.take ec2.PeriodCount.toNat }
      else ec2

/-- `Increment` of `src/eta.go` with Go's panic behaviour for the slice
`ec.stats[:ec.PeriodCount]` (panics when `PeriodCount < 0`). -/
def IncrementGo (ec : Calculator) (n now : Int) : GoResult Calculator :=
  if n ≤ 0 then .ok ec
  else
    let ec1 := { ec with processed := ec.processed + n }
    let period := truncate now ec1.periodDuration
    if ec1.currentPeriod = period then
      .ok { ec1 with currentProcessed := ec1.currentProcessed + n }
    else
      let ec2 := { ec1 with stats := ec1.stats ++ [ec1.currentProcessed]
                            currentProcessed := 0
                            currentPeriod := period }
      if ec2.PeriodCount < (ec2.stats.length : Int) then
        if ec2.PeriodCount < 0 then .error .sliceBounds
        else .ok { ec2 with stats := ec2.stats.take ec2.PeriodCount.toNat }
      else .ok ec2

/-- `Last` of `src/eta.go`:
`ec.periodDuration / ec.stats[len(ec.stats)-1]` with no emptiness or zero
guard, so indexing an empty history and a zero last count both fault. -/
def Last (ec : Calculator) (now : Int) : GoResult Int :=
  if ec.processed = 0 then .ok 0
  else
    match ec.stats.getLast? with
    | none => .error .indexOutOfRange
    | some c => do
        let lastPeriodSpeed ← goDiv ec.periodDuration c
        .ok (now + lastPeriodSpeed * (ec.TotalCount - ec.processed))

/-- `cycleTime` of `src/eta.go`: elapsed time divided by `processed`. -/
def cycleTime (ec : Calculator) (now : Int) : GoResult Int :=
  goDiv (now - ec.startTime) ec.processed

/-- `averageCycleTime` of `src/eta.go`.  The loop over
`i = len(stats)-2 … 0` accumulates the sum of `stats[0 .. len-2]` into
`processed` (seeded with `stats[len-1]`) and pushes `startPeriod` back by
one `periodDuration` per iteration. -/
def averageCycleTime (ec : Calculator) : GoResult Int :=
  match ec.stats.getLast? with
  | none => .error .indexOutOfRange
  | some c =>
      let processed := c + (ec.stats.take (ec.stats.length - 1)).sum
      let startPeriod := ec.currentPeriod - ec.periodDuration -
        ((ec.stats.length - 1 : Nat) : Int) * ec.periodDuration
      if processed = 0 then .ok 0
      else goDiv (ec.currentPeriod - startPeriod) processed

/-- The loop of `optimisticCycleTime`: for `i = len(stats)-2 … 1` the Go
code reads `stats[i-1]`, i.e. it walks `stats[len-3], …, stats[0]`; that
is `(stats.take (len-2)).reverse`, which is the list argument here.  `m`
is the running `maxSpeed`. -/
def optLoop (pd m : Int) : List Int → Int
  | [] => m
  | c :: rest =>
      if c = 0 then optLoop pd m rest
      else
        let newMaxSpeed := Int.tdiv pd c
        if newMaxSpeed < m ∧ 0 < newMaxSpeed then optLoop pd newMaxSpeed rest
        else optLoop pd m rest

/-- `optimisticCycleTime` of `src/eta.go`. -/
def optimisticCycleTime (ec : Calculator) : GoResult Int :=
  match ec.stats.getLast? with
  | none => .error .indexOutOfRange
  | some c =>
      let maxSpeed := if 0 < c then Int.tdiv ec.periodDuration c else 0
      .ok (optLoop ec.periodDuration maxSpeed
        ((ec.stats.take (ec.stats.length - 2)).reverse))

/-- The loop of `pessimisticCycleTime`, over the same index walk as
`optLoop`; `m` is the running `minSpeed` and `z` the `nulPeriods` count. -/
def pessLoop (pd m : Int) (z : Nat) : List Int → Int × Nat
  | [] => (m, z)
  | c :: rest =>
      if c = 0 then pessLoop pd m (z + 1) rest
      else
        let newMinSpeed := Int.tdiv pd c
        if m < newMinSpeed then pessLoop pd newMinSpeed z rest
        else pessLoop pd m z rest

/-- `pessimisticCycleTime` of `src/eta.go`. -/
def pessimisticCycleTime (ec : Calculator) : GoResult Int :=
  match ec.stats.getLast? with
  | none => .error .indexOutOfRange
  | some c =>
      let minSpeed := if 0 < c then Int.tdiv ec.periodDuration c else 0
      let r := pessLoop ec.periodDuration minSpeed 0
        ((ec.stats.take (ec.stats.length - 2)).reverse)
      .ok (r.1 * (1 + (r.2 : Int)))

/-- `Eta` of `src/eta.go`. -/
def Eta (ec : Calculator) (now : Int) : GoResult Int :=
  if ec.processed = 0 then .ok 0
  else do
    let avgCycleTime ← cycleTime ec now
    .ok (now + avgCycleTime * (ec.TotalCount - ec.processed))

/-- `Average` of `src/eta.go`. -/
def Average (ec : Calculator) (now : Int) : GoResult Int :=
  if ec.stats.length = 0 then Eta ec now
  else do
    let avgCycleTime ← averageCycleTime ec
    if avgCycleTime = 0 then .ok 0
    else .ok (now + (ec.TotalCount - ec.processed) * avgCycleTime)

/-- `Optimistic` of `src/eta.go` (the source calls `optimisticCycleTime`
a second time when building the returned timestamp). -/
def Optimistic (ec : Calculator) (now : Int) : GoResult Int :=
  if ec.stats.length = 0 then Eta ec now
  else do
    let oct ← optimisticCycleTime ec
    if oct = 0 then .ok 0
    else do
      let oct2 ← optimisticCycleTime ec
      .ok (now + (ec.TotalCount - ec.processed) * oct2)

/-- `Pessimistic` of `src/eta.go`. -/
def Pessimistic (ec : Calculator) (now : Int) : GoResult Int :=
  if ec.stats.length = 0 then Eta ec now
  else do
    let pct ← pessimisticCycleTime ec
    if pct = 0 then .ok 0
    else .ok (now + (ec.TotalCount - ec.processed) * pct)

/-- States reachable from `NewCustom` (with the modelled default
`PeriodCount` value `pc`) by any finite sequence of `Increment` calls. -/
inductive Reachable (pc pd : Int) : Calculator → Prop where
  | init (totalCount now : Int) : Reachable pc pd (NewCustom totalCount pd pc now)
  | step {ec : Calculator} (n now : Int) :
      Reachable pc pd ec → Reachable pc pd (Increment ec n now)

/-- A sequence of `Increment` calls, each given as `(n, now)`. -/
def runCalls (ec : Calculator) (calls : List (Int × Int)) : Calculator :=
  calls.foldl (fun st c => Increment st c.1 c.2) ec

/-- Concrete state: `PeriodCount = 2`, two closed buckets `[1, 2]`, open
bucket holding `3`, period width `10`, current period starting at `0`. -/
def exC1 : Calculator := ⟨0, 3, 100, 2, 10, 0, 3, [1, 2]⟩

/-- Concrete state with room in `stats` (`PeriodCount = 15`). -/
def exC2 : Calculator := ⟨0, 3, 100, 15, 10, 0, 3, [1, 2]⟩

/-- Concrete state whose single closed bucket has count `0`. -/
def exC3 : Calculator := ⟨0, 5, 100, 15, 10, 0, 0, [0]⟩

/-- Concrete state with a nonzero last bucket, used as a witness state. -/
def exC3w : Calculator := ⟨0, 5, 100, 15, 10, 0, 0, [4]⟩

/-- Concrete state with `stats = [5, 1, 0]`: the scanned bucket at index 0
has nonzero count but the last bucket's count is `0`. -/
def exC4 : Calculator := ⟨0, 5, 100, 15, 10, 0, 0, [5, 1, 0]⟩

/-- Concrete state with `stats = [2, 1, 5]` and a nonzero last bucket. -/
def exC4w : Calculator := ⟨0, 5, 100, 15, 10, 0, 0, [2, 1, 5]⟩

/-- Concrete state with `processed > 0` and an empty history. -/
def exC5 : Calculator := ⟨0, 5, 100, 15, 10, 0, 0, []⟩

/-- A generic concrete state used by witnesses. -/
def exSt : Calculator := ⟨0, 5, 100, 15, 10, 0, 2, [4, 6]⟩

/-- The corrected description of `optimisticCycleTime`: the fold of `min`,
seeded with `pd / lastCount` when the last count is positive (else `0`),
over the positive quotients `pd / count` of the scanned prefix
`stats[0 .. len-3]` (the entry at index `len-2` is never scanned). -/
def optimisticSpecCycle (pd : Int) (stats : List Int) (c : Int) : Int :=
  (((stats.take (stats.length - 2)).map (fun b => Int.tdiv pd b)).filter
    (fun q => decide (0 < q))).foldl min (if 0 < c then Int.tdiv pd c else 0)

/-! ## Helper lemmas about `Increment` -/

theorem Increment_nonpos (ec : Calculator) (n now : Int) (hn : n ≤ 0) :
    Increment ec n now = ec := by
  unfold Increment
  simp [hn]

theorem Increment_same (ec : Calculator) (n now : Int) (hn : 0 < n)
    (hp : ec.currentPeriod = truncate now ec.periodDuration) :
    Increment ec n now =
      { ec with processed := ec.processed + n
                currentProcessed := ec.currentProcessed + n } := by
  unfold Increment
  simp [not_le.mpr hn, hp]

theorem Increment_roll (ec : Calculator) (n now : Int) (hn : 0 < n)
    (hp : ec.currentPeriod ≠ truncate now ec.periodDuration) :
    Increment ec n now =
      { ec with processed := ec.processed + n
                currentPeriod := truncate now ec.periodDuration
                currentProcessed := 0
                stats :=
                  if ec.PeriodCount < (ec.stats.length : Int) + 1
                  then (ec.stats ++ [ec.currentProcessed]).take ec.PeriodCount.toNat
                  else ec.stats ++ [ec.currentProcessed] } := by
  unfold Increment
  simp [not_le.mpr hn, hp]
  split <;> rfl

theorem Increment_PeriodCount (ec : Calculator) (n now : Int) :
    (Increment ec n now).PeriodCount = ec.PeriodCount := by
  rcases le_or_lt n 0 with hn | hn
  · rw [Increment_nonpos ec n now hn]
  · by_cases hp : ec.currentPeriod = truncate now ec.periodDuration
    · rw [Increment_same ec n now hn hp]
    · rw [Increment_roll ec n now hn hp]

theorem Increment_length_le (ec : Calculator) (n now : Int)
    (h : (ec.stats.length : Int) ≤ ec.PeriodCount) :
    ((Increment ec n now).stats.length : Int) ≤ ec.PeriodCount := by
  have hpc : 0 ≤ ec.PeriodCount := le_trans (Int.natCast_nonneg _) h
  rcases le_or_lt n 0 with hn | hn
  · rw [Increment_nonpos ec n now hn]; exact h
  · by_cases hp : ec.currentPeriod = truncate now ec.periodDuration
    · rw [Increment_same ec n now hn hp]; exact h
    · rw [Increment_roll ec n now hn hp]
      dsimp only
      split
      · rw [List.length_take]
        calc ((min ec.PeriodCount.toNat (ec.stats ++ [ec.currentProcessed]).length : Nat) : Int)
            ≤ (ec.PeriodCount.toNat : Int) := by exact_mod_cast Nat.min_le_left _ _
          _ = ec.PeriodCount := Int.toNat_of_nonneg hpc
      · rename_i htrim
        simp only [List.length_append, List.length_singleton]
        omega

theorem Increment_stats_frozen (ec : Calculator) (n now : Int)
    (h : (ec.stats.length : Int) = ec.PeriodCount) :
    (Increment ec n now).stats = ec.stats := by
  rcases le_or_lt n 0 with hn | hn
  · rw [Increment_nonpos ec n now hn]
  · by_cases hp : ec.currentPeriod = truncate now ec.periodDuration
    · rw [Increment_same ec n now hn hp]
    · rw [Increment_roll ec n now hn hp]
      dsimp only
      have hlt : ec.PeriodCount < (ec.stats.length : Int) + 1 := by omega
      rw [if_pos hlt]
      have htn : ec.PeriodCount.toNat = ec.stats.length := by omega
      rw [htn, List.take_left]

theorem Reachable_PeriodCount {pc pd : Int} {ec : Calculator}
    (h : Reachable pc pd ec) : ec.PeriodCount = pc := by
  induction h with
  | init tc now => rfl
  | step n now _ ih => rw [Increment_PeriodCount]; exact ih

/-! ## Claims about `Increment` -/

/-- Claim C8: for every `n ≤ 0` and every state, `Increment(n)` leaves the
entire state (processed, currentPeriod, currentProcessed, stats) unchanged. -/
theorem C8_increment_nonpos_noop (ec : Calculator) (n now : Int) (hn : n ≤ 0) :
    Increment ec n now = ec :=
  Increment_nonpos ec n now hn

theorem C8_witness : Increment exSt (-3) 99 = exSt :=
  C8_increment_nonpos_noop exSt (-3) 99 (by decide)

/-- Claim C2: an `Increment(n)` with `n > 0` that crosses a period boundary
closes the old bucket with exactly its previously accumulated total (the
appended entry is the old `currentProcessed`, not `currentProcessed + n`),
starts the new open bucket at `0`, and adds `n` only to `processed`.
Stated with room in `stats` so that the (buggy) trim does not fire. -/
theorem C2_rollover (ec : Calculator) (n now : Int) (hn : 0 < n)
    (hp : ec.currentPeriod ≠ truncate now ec.periodDuration)
    (hroom : (ec.stats.length : Int) < ec.PeriodCount) :
    (Increment ec n now).stats = ec.stats ++ [ec.currentProcessed] ∧
    (Increment ec n now).currentProcessed = 0 ∧
    (Increment ec n now).processed = ec.processed + n ∧
    (Increment ec n now).currentPeriod = truncate now ec.periodDuration := by
  rw [Increment_roll ec n now hn hp]
  have hno : ¬ ec.PeriodCount < (ec.stats.length : Int) + 1 := by omega
  refine ⟨?_, rfl, rfl, rfl⟩
  dsimp only
  rw [if_neg hno]

theorem C2_witness :
    (Increment exC2 1 15).stats = exC2.stats ++ [exC2.currentProcessed] ∧
    (Increment exC2 1 15).currentProcessed = 0 ∧
    (Increment exC2 1 15).processed = exC2.processed + 1 ∧
    (Increment exC2 1 15).currentPeriod = truncate 15 exC2.periodDuration :=
  C2_rollover exC2 1 15 (by decide) (by decide) (by decide)

/-- Claim C1 (code bug): in state `exC1` (`PeriodCount = 2`,
`stats = [1, 2]`, open bucket total `3`) an `Increment` that crosses the
period boundary appends the closed count `3` and then trims with
`stats[:PeriodCount]`, which keeps the two oldest counts `[1, 2]` and
discards the just-closed count `3` — not, as the claim states, the two
most recently closed counts with the just-closed one first. -/
theorem C1_trim_drops_newest :
    (Increment exC1 1 15).stats = [1, 2] ∧
    (3 : Int) ∉ (Increment exC1 1 15).stats ∧
    exC1.currentProcessed = 3 ∧ exC1.PeriodCount = 2 := by decide

/-- Claim C9: a single `Increment` call appends at most one entry to
`stats`, and every entry of the new `stats` is either an old entry or the
just-closed bucket's count — skipped periods yield no fabricated entries. -/
theorem C9_at_most_one_append (ec : Calculator) (n now : Int) :
    (Increment ec n now).stats.length ≤ ec.stats.length + 1 ∧
    ∀ x ∈ (Increment ec n now).stats, x ∈ ec.stats ∨ x = ec.currentProcessed := by
  rcases le_or_lt n 0 with hn | hn
  · rw [Increment_nonpos ec n now hn]
    exact ⟨Nat.le_succ _, fun x hx => Or.inl hx⟩
  · by_cases hp : ec.currentPeriod = truncate now ec.periodDuration
    · rw [Increment_same ec n now hn hp]
      exact ⟨Nat.le_succ _, fun x hx => Or.inl hx⟩
    · rw [Increment_roll ec n now hn hp]
      dsimp only
      have hmem : ∀ x ∈ ec.stats ++ [ec.currentProcessed],
          x ∈ ec.stats ∨ x = ec.currentProcessed := by
        intro x hx
        rcases List.mem_append.mp hx with h | h
        · exact Or.inl h
        · exact Or.inr (List.mem_singleton.mp h)
      split
      · constructor
        · rw [List.length_take]
          simp only [List.length_append, List.length_singleton]
          omega
        · intro x hx
          exact hmem x (List.take_subset _ _ hx)
      · constructor
        · simp
        · exact hmem

theorem C9_witness :
    (Increment exSt 1 25).stats.length ≤ exSt.stats.length + 1 ∧
    ∀ x ∈ (Increment exSt 1 25).stats, x ∈ exSt.stats ∨ x = exSt.currentProcessed :=
  C9_at_most_one_append exSt 1 25

/-- Claim C6: from any freshly constructed calculator (default
`PeriodCount` modelled as any `pc ≥ 0`), every finite sequence of
`Increment` calls keeps `len(stats) ≤ PeriodCount`. -/
theorem C6_stats_bounded {pc pd : Int} (hpc : 0 ≤ pc) {ec : Calculator}
    (h : Reachable pc pd ec) : (ec.stats.length : Int) ≤ pc := by
  induction h with
  | init tc now => simpa [NewCustom] using hpc
  | step n now hr ih =>
      have hP : _ = pc := Reachable_PeriodCount hr
      have hstep := Increment_length_le _ n now (by rw [hP]; exact ih)
      rwa [hP] at hstep

theorem C6_witness : (((Increment (NewCustom 100 10 2 0) 4 25).stats.length : Nat) : Int) ≤ 2 :=
  C6_stats_bounded (by decide) (Reachable.step 4 25 (Reachable.init 100 0))

/-- Claim C10: once `len(stats) = PeriodCount` (with `PeriodCount ≥ 1`),
the contents of `stats` never change again under any further sequence of
`Increment` calls — the trim always discards the newly appended count. -/
theorem C10_stats_frozen (ec : Calculator) (hpc : 1 ≤ ec.PeriodCount)
    (hlen : (ec.stats.length : Int) = ec.PeriodCount) (calls : List (Int × Int)) :
    (runCalls ec calls).stats = ec.stats := by
  induction calls generalizing ec with
  | nil => rfl
  | cons c cs ih =>
      have hf := Increment_stats_frozen ec c.1 c.2 hlen
      have hP := Increment_PeriodCount ec c.1 c.2
      have hstep := ih (Increment ec c.1 c.2) (by rw [hP]; exact hpc)
        (by rw [hf, hP]; exact hlen)
      calc (runCalls ec (c :: cs)).stats
          = (runCalls (Increment ec c.1 c.2) cs).stats := rfl
        _ = (Increment ec c.1 c.2).stats := hstep
        _ = ec.stats := hf

theorem C10_witness : (runCalls exC1 [(1, 15), (2, 27), (-5, 30)]).stats = exC1.stats :=
  C10_stats_frozen exC1 (by decide) (by decide) [(1, 15), (2, 27), (-5, 30)]

/-! ## Helper lemmas about the projections -/

theorem goBind_ok {α β : Type} (a : α) (f : α → GoResult β) :
    (Except.ok a >>= f : GoResult β) = f a := rfl

theorem getLast?_some_of_ne_nil {l : List Int} (h : l ≠ []) :
    ∃ c, l.getLast? = some c := by
  cases hc : l.getLast? with
  | none => exact absurd (List.getLast?_eq_none_iff.mp hc) h
  | some c => exact ⟨c, rfl⟩

theorem ne_nil_of_getLast?_eq_some {l : List Int} {c : Int}
    (h : l.getLast? = some c) : l ≠ [] := by
  intro hn
  rw [hn] at h
  exact Option.noConfusion h

theorem IncrementGo_ok (ec : Calculator) (n now : Int) (hpc : 0 ≤ ec.PeriodCount) :
    IncrementGo ec n now = .ok (Increment ec n now) := by
  by_cases hn : n ≤ 0
  · unfold IncrementGo Increment
    rw [if_pos hn, if_pos hn]
  · unfold IncrementGo Increment
    rw [if_neg hn, if_neg hn]
    dsimp only
    by_cases hp : ec.currentPeriod = truncate now ec.periodDuration
    · rw [if_pos hp, if_pos hp]
    · rw [if_neg hp, if_neg hp]
      by_cases hc : ec.PeriodCount < ((ec.stats ++ [ec.currentProcessed]).length : Int)
      · rw [if_pos hc, if_pos hc, if_neg (not_lt.mpr hpc)]
      · rw [if_neg hc, if_neg hc]

theorem Eta_isOk (ec : Calculator) (now : Int) : (Eta ec now).isOk = true := by
  unfold Eta
  by_cases h : ec.processed = 0
  · rw [if_pos h]; rfl
  · rw [if_neg h]
    unfold cycleTime goDiv
    rw [if_neg h]
    rfl

theorem averageCycleTime_ok (ec : Calculator) (h : ec.stats ≠ []) :
    ∃ t, averageCycleTime ec = .ok t := by
  obtain ⟨c, hc⟩ := getLast?_some_of_ne_nil h
  unfold averageCycleTime
  rw [hc]
  dsimp only
  by_cases hz : c + (ec.stats.take (ec.stats.length - 1)).sum = 0
  · rw [if_pos hz]; exact ⟨0, rfl⟩
  · rw [if_neg hz]
    unfold goDiv
    rw [if_neg hz]
    exact ⟨_, rfl⟩

theorem optimisticCycleTime_eq (ec : Calculator) {c : Int}
    (hc : ec.stats.getLast? = some c) :
    optimisticCycleTime ec =
      .ok (optLoop ec.periodDuration (if 0 < c then Int.tdiv ec.periodDuration c else 0)
        ((ec.stats.take (ec.stats.length - 2)).reverse)) := by
  unfold optimisticCycleTime
  rw [hc]

theorem pessimisticCycleTime_ok (ec : Calculator) (h : ec.stats ≠ []) :
    ∃ t, pessimisticCycleTime ec = .ok t := by
  obtain ⟨c, hc⟩ := getLast?_some_of_ne_nil h
  unfold pessimisticCycleTime
  rw [hc]
  exact ⟨_, rfl⟩

theorem Average_isOk (ec : Calculator) (now : Int) : (Average ec now).isOk = true := by
  unfold Average
  by_cases h : ec.stats.length = 0
  · rw [if_pos h]; exact Eta_isOk ec now
  · rw [if_neg h]
    have hne : ec.stats ≠ [] := fun hn => h (by rw [hn]; rfl)
    obtain ⟨t, ht⟩ := averageCycleTime_ok ec hne
    rw [ht, goBind_ok]
    by_cases hz : t = 0
    · rw [if_pos hz]; rfl
    · rw [if_neg hz]; rfl

theorem Optimistic_isOk (ec : Calculator) (now : Int) : (Optimistic ec now).isOk = true := by
  unfold Optimistic
  by_cases h : ec.stats.length = 0
  · rw [if_pos h]; exact Eta_isOk ec now
  · rw [if_neg h]
    have hne : ec.stats ≠ [] := fun hn => h (by rw [hn]; rfl)
    obtain ⟨c, hc⟩ := getLast?_some_of_ne_nil hne
    rw [optimisticCycleTime_eq ec hc, goBind_ok]
    by_cases hz : optLoop ec.periodDuration
        (if 0 < c then Int.tdiv ec.periodDuration c else 0)
        ((ec.stats.take (ec.stats.length - 2)).reverse) = 0
    · rw [if_pos hz]; rfl
    · rw [if_neg hz, goBind_ok]; rfl

theorem Pessimistic_isOk (ec : Calculator) (now : Int) : (Pessimistic ec now).isOk = true := by
  unfold Pessimistic
  by_cases h : ec.stats.length = 0
  · rw [if_pos h]; exact Eta_isOk ec now
  · rw [if_neg h]
    have hne : ec.stats ≠ [] := fun hn => h (by rw [hn]; rfl)
    obtain ⟨t, ht⟩ := pessimisticCycleTime_ok ec hne
    rw [ht, goBind_ok]
    by_cases hz : t = 0
    · rw [if_pos hz]; rfl
    · rw [if_neg hz]; rfl

theorem Last_sentinel (ec : Calculator) (now : Int) (h0 : ec.processed = 0) :
    Last ec now = .ok 0 := by
  unfold Last
  rw [if_pos h0]

theorem Last_nil (ec : Calculator) (now : Int) (h0 : ¬ ec.processed = 0)
    (hnil : ec.stats = []) : Last ec now = .error .indexOutOfRange := by
  unfold Last
  rw [if_neg h0, hnil]
  rfl

theorem Last_div_zero (ec : Calculator) (now : Int) (h0 : ¬ ec.processed = 0)
    (hc : ec.stats.getLast? = some 0) : Last ec now = .error .divideByZero := by
  unfold Last
  rw [if_neg h0, hc]
  rfl

theorem Last_ok_of_nonzero (ec : Calculator) (now c : Int) (h0 : ¬ ec.processed = 0)
    (hc : ec.stats.getLast? = some c) (hcz : ¬ c = 0) :
    Last ec now = .ok (now + Int.tdiv ec.periodDuration c * (ec.TotalCount - ec.processed)) := by
  unfold Last goDiv
  rw [if_neg h0, hc]
  dsimp only
  rw [if_neg hcz]
  rfl

theorem Last_isOk_false_iff (ec : Calculator) (now : Int) :
    (Last ec now).isOk = false ↔
      ec.processed ≠ 0 ∧ (ec.stats = [] ∨ ec.stats.getLast? = some 0) := by
  by_cases h0 : ec.processed = 0
  · rw [Last_sentinel ec now h0]
    simp [Except.isOk, Except.toBool, h0]
  · cases hc : ec.stats.getLast? with
    | none =>
        have hnil := List.getLast?_eq_none_iff.mp hc
        rw [Last_nil ec now h0 hnil]
        simp [Except.isOk, Except.toBool, h0, hnil]
    | some c =>
        have hnil := ne_nil_of_getLast?_eq_some hc
        by_cases hcz : c = 0
        · subst hcz
          rw [Last_div_zero ec now h0 hc]
          simp [Except.isOk, Except.toBool, h0, hc]
        · rw [Last_ok_of_nonzero ec now c h0 hc hcz]
          simp [Except.isOk, Except.toBool, h0, hnil, hc, hcz]

/-! ## Helper lemmas for the `optimisticCycleTime` characterisation -/

theorem foldl_min_comm (l : List Int) (m c : Int) :
    l.foldl min (min m c) = min (l.foldl min m) c := by
  induction l generalizing m with
  | nil => rfl
  | cons a rest ih =>
      rw [List.foldl_cons, List.foldl_cons, min_right_comm m c a, ih (min m a)]

theorem foldl_min_reverse (l : List Int) (m : Int) :
    l.reverse.foldl min m = l.foldl min m := by
  induction l generalizing m with
  | nil => rfl
  | cons a rest ih =>
      rw [List.reverse_cons, List.foldl_append, List.foldl_cons, List.foldl_nil, ih m,
        List.foldl_cons, foldl_min_comm rest m a]

theorem foldl_min_le_init (l : List Int) (m : Int) : l.foldl min m ≤ m := by
  induction l generalizing m with
  | nil => exact le_refl m
  | cons a rest ih =>
      rw [List.foldl_cons]
      exact le_trans (ih (min m a)) (min_le_left m a)

theorem foldl_min_eq_init_or_mem (l : List Int) (m : Int) :
    l.foldl min m = m ∨ l.foldl min m ∈ l := by
  induction l generalizing m with
  | nil => exact Or.inl rfl
  | cons a rest ih =>
      rw [List.foldl_cons]
      rcases ih (min m a) with h | h
      · rcases le_total m a with hma | ham
        · exact Or.inl (by rw [h, min_eq_left hma])
        · exact Or.inr (by rw [h, min_eq_right ham]; exact List.mem_cons_self a rest)
      · exact Or.inr (List.mem_cons_of_mem a h)

theorem optLoop_eq_foldl (pd : Int) (l : List Int) (m : Int) :
    optLoop pd m l =
      ((l.map (fun b => Int.tdiv pd b)).filter (fun q => decide (0 < q))).foldl min m := by
  induction l generalizing m with
  | nil => rfl
  | cons b rest ih =>
      have hopt : optLoop pd m (b :: rest) =
          if b = 0 then optLoop pd m rest
          else if Int.tdiv pd b < m ∧ 0 < Int.tdiv pd b
            then optLoop pd (Int.tdiv pd b) rest
            else optLoop pd m rest := rfl
      rw [hopt, List.map_cons, List.filter_cons]
      by_cases hb : b = 0
      · subst hb
        rw [if_pos rfl, Int.tdiv_zero, if_neg (by decide)]
        exact ih m
      · rw [if_neg hb]
        by_cases hq : 0 < Int.tdiv pd b
        · rw [if_pos (decide_eq_true hq), List.foldl_cons]
          by_cases hlt : Int.tdiv pd b < m
          · rw [if_pos ⟨hlt, hq⟩, ih (Int.tdiv pd b)]
            rw [min_eq_right (le_of_lt hlt)]
          · rw [if_neg (fun h => hlt h.1), ih m]
            rw [min_eq_left (not_lt.mp hlt)]
        · rw [if_neg (show ¬ decide (0 < Int.tdiv pd b) = true from by simpa using hq)]
          rw [if_neg (fun h => hq h.2)]
          exact ih m

theorem optimisticSpecCycle_eq (ec : Calculator) {c : Int}
    (hc : ec.stats.getLast? = some c) :
    optimisticCycleTime ec = .ok (optimisticSpecCycle ec.periodDuration ec.stats c) := by
  rw [optimisticCycleTime_eq ec hc]
  congr 1
  rw [optLoop_eq_foldl]
  unfold optimisticSpecCycle
  rw [List.map_reverse, List.filter_reverse, foldl_min_reverse]

theorem optimisticSpecCycle_zero_iff (pd : Int) (stats : List Int) (c : Int)
    (hpd : 0 < pd) :
    optimisticSpecCycle pd stats c = 0 ↔ ¬ (0 < c ∧ 0 < Int.tdiv pd c) := by
  unfold optimisticSpecCycle
  set m0 := if 0 < c then Int.tdiv pd c else 0 with hm0
  set L := ((stats.take (stats.length - 2)).map (fun b => Int.tdiv pd b)).filter
    (fun q => decide (0 < q)) with hL
  have hLpos : ∀ x ∈ L, 0 < x := by
    intro x hx
    rw [hL] at hx
    exact of_decide_eq_true (List.mem_filter.mp hx).2
  constructor
  · intro h
    have hm0z : m0 = 0 := by
      rcases foldl_min_eq_init_or_mem L m0 with he | he
      · rw [he] at h; exact h
      · exfalso
        have hpos := hLpos _ he
        rw [h] at hpos
        exact lt_irrefl 0 hpos
    rintro ⟨hc1, hc2⟩
    rw [hm0, if_pos hc1] at hm0z
    rw [hm0z] at hc2
    exact lt_irrefl 0 hc2
  · intro h
    have hm0z : m0 = 0 := by
      rw [hm0]
      split
      · rename_i hcpos
        by_contra hne
        have hq : 0 < Int.tdiv pd c :=
          lt_of_le_of_ne (Int.tdiv_nonneg (le_of_lt hpd) (le_of_lt hcpos)) (Ne.symm hne)
        exact h ⟨hcpos, hq⟩
      · rfl
    rcases foldl_min_eq_init_or_mem L m0 with he | he
    · rw [he, hm0z]
    · have h1 := hLpos _ he
      have h2 : L.foldl min m0 ≤ 0 := le_trans (foldl_min_le_init L m0) (le_of_eq hm0z)
      omega

/-! ## Claims about the projections -/

/-- Claim C5: whenever `processed > 0` and `stats` is empty, `Last`
reaches the out-of-bounds indexing of `stats[len(stats)-1]` and faults
instead of returning a timestamp. -/
theorem C5_last_empty_faults (ec : Calculator) (now : Int)
    (h0 : ec.processed ≠ 0) (hnil : ec.stats = []) :
    Last ec now = .error .indexOutOfRange :=
  Last_nil ec now h0 hnil

theorem C5_witness : Last exC5 3 = .error .indexOutOfRange :=
  C5_last_empty_faults exC5 3 (by decide) rfl

/-- Claim C3 is false as stated: in the reachable-shaped state `exC3`
(`processed = 5`, one closed bucket of count `0`), the projection `Last`
divides `periodDuration` by the zero last-bucket count with no preceding
guard and reaches a failure branch. -/
theorem C3_counterexample :
    Last exC3 0 = .error .divideByZero ∧ exC3.processed = 5 ∧ exC3.stats = [0] := by
  decide

/-- Claim C3 (amended): `Increment` (for `PeriodCount ≥ 0`) and the
projections `Eta`, `Average`, `Optimistic`, `Pessimistic` never reach a
failure branch — each of their divisions is protected by a preceding
guard — but `Last` is unguarded: it faults exactly when `processed ≠ 0`
and the history is empty (out-of-bounds index) or the last closed bucket
count is `0` (division by zero). -/
theorem C3_no_failure_except_last (ec : Calculator) (n now : Int)
    (hpc : 0 ≤ ec.PeriodCount) :
    IncrementGo ec n now = .ok (Increment ec n now) ∧
    (Eta ec now).isOk = true ∧
    (Average ec now).isOk = true ∧
    (Optimistic ec now).isOk = true ∧
    (Pessimistic ec now).isOk = true ∧
    ((Last ec now).isOk = false ↔
      ec.processed ≠ 0 ∧ (ec.stats = [] ∨ ec.stats.getLast? = some 0)) :=
  ⟨IncrementGo_ok ec n now hpc, Eta_isOk ec now, Average_isOk ec now,
    Optimistic_isOk ec now, Pessimistic_isOk ec now, Last_isOk_false_iff ec now⟩

theorem C3_witness :
    IncrementGo exC3w 1 7 = .ok (Increment exC3w 1 7) ∧
    (Eta exC3w 7).isOk = true ∧
    (Average exC3w 7).isOk = true ∧
    (Optimistic exC3w 7).isOk = true ∧
    (Pessimistic exC3w 7).isOk = true ∧
    ((Last exC3w 7).isOk = false ↔
      exC3w.processed ≠ 0 ∧ (exC3w.stats = [] ∨ exC3w.stats.getLast? = some 0)) :=
  C3_no_failure_except_last exC3w 1 7 (by decide)

/-- Claim C7: in the freshly constructed state (any total count, period
width, retained-period count and construction time), all five projections
return the sentinel zero timestamp. -/
theorem C7_fresh_all_sentinel (totalCount pd pc now now2 : Int) :
    Eta (NewCustom totalCount pd pc now) now2 = .ok 0 ∧
    Last (NewCustom totalCount pd pc now) now2 = .ok 0 ∧
    Average (NewCustom totalCount pd pc now) now2 = .ok 0 ∧
    Optimistic (NewCustom totalCount pd pc now) now2 = .ok 0 ∧
    Pessimistic (NewCustom totalCount pd pc now) now2 = .ok 0 :=
  ⟨rfl, rfl, rfl, rfl, rfl⟩

/-- Claim C4 is false as stated: in `exC4` (`stats = [5, 1, 0]`,
`periodDuration = 10`), the scanned bucket at index `0` has the nonzero
count `5` with per-bucket cycle time `10 / 5 = 2`, yet `Optimistic`
returns the sentinel because the last bucket's count is `0` — so the
cycle time is not the smallest quotient over scanned nonzero buckets, and
the sentinel is returned although a scanned bucket has nonzero count. -/
theorem C4_counterexample :
    Optimistic exC4 0 = .ok 0 ∧ optimisticCycleTime exC4 = .ok 0 ∧
    exC4.stats = [5, 1, 0] ∧ Int.tdiv exC4.periodDuration 5 = 2 := by
  decide

/-- Claim C4 (amended): for every non-empty `stats` (last entry `c`,
positive period width), `Optimistic`'s cycle time is the minimum, seeded
with `m0 := periodDuration/c` when `c > 0` (else `0`), of the positive
quotients `periodDuration/count` over the scanned prefix
`stats[0 .. len-3]` (index `len-2` is never scanned); and the sentinel is
returned exactly when `m0 = 0` — i.e. when `c ≤ 0` or
`periodDuration/c = 0` — even if other scanned buckets are nonzero. -/
theorem C4_optimistic_corrected (ec : Calculator) (c : Int)
    (hc : ec.stats.getLast? = some c) (hpd : 0 < ec.periodDuration) (now2 : Int) :
    optimisticCycleTime ec = .ok (optimisticSpecCycle ec.periodDuration ec.stats c) ∧
    (optimisticSpecCycle ec.periodDuration ec.stats c = 0 ↔
      ¬ (0 < c ∧ 0 < Int.tdiv ec.periodDuration c)) ∧
    Optimistic ec now2 =
      .ok (if optimisticSpecCycle ec.periodDuration ec.stats c = 0 then 0
        else now2 + (ec.TotalCount - ec.processed) *
          optimisticSpecCycle ec.periodDuration ec.stats c) := by
  refine ⟨optimisticSpecCycle_eq ec hc, optimisticSpecCycle_zero_iff _ _ _ hpd, ?_⟩
  unfold Optimistic
  have hne : ec.stats ≠ [] := ne_nil_of_getLast?_eq_some hc
  rw [if_neg (fun h => hne (List.length_eq_zero.mp h))]
  rw [optimisticSpecCycle_eq ec hc, goBind_ok]
  by_cases hz : optimisticSpecCycle ec.periodDuration ec.stats c = 0
  · rw [if_pos hz, if_pos hz]
  · rw [if_neg hz, if_neg hz, goBind_ok]

theorem C4_witness :
    optimisticCycleTime exC4w = .ok (optimisticSpecCycle exC4w.periodDuration exC4w.stats 5) ∧
    (optimisticSpecCycle exC4w.periodDuration exC4w.stats 5 = 0 ↔
      ¬ (0 < (5 : Int) ∧ 0 < Int.tdiv exC4w.periodDuration 5)) ∧
    Optimistic exC4w 7 =
      .ok (if optimisticSpecCycle exC4w.periodDuration exC4w.stats 5 = 0 then 0
        else 7 + (exC4w.TotalCount - exC4w.processed) *
          optimisticSpecCycle exC4w.periodDuration exC4w.stats 5) :=
  C4_optimistic_corrected exC4w 5 (by decide) (by decide) 7

end GoEta
